import Mathlib

/-!
# Verification of the schema core of `dart-sql-generator`

Shallow embedding of `src/core/database.py`:
`parse_sql_schema`, `load_schema_from_file`, `format_schema_for_prompt`
and `validate_schema`, together with theorems about them.

Modelling conventions:
* characters are modelled at the ASCII level (Python's `\w`, `\s`,
  `str.upper`, `str.lower`, `str.strip` restricted to ASCII);
* Python `dict` values are modelled as insertion-ordered association
  lists (`List (String × Value)`), with `dictInsert` reproducing
  `d[k] = v` (overwrite keeps the original position);
* fallible operations return `Except String _`, where the error string
  names the Python exception class that would be raised;
* the three regular expressions used by the code
  (`CREATE\s+TABLE\s+(\w+)\s*\((.*?)\);`,
   `PRIMARY\s+KEY\s*\((\w+)\)`,
   `FOREIGN\s+KEY\s*\((\w+)\)\s+REFERENCES\s+(\w+)\s*\((\w+)\)`)
  contain no point where backtracking can rescue a failed greedy or
  lazy sub-match (each `\s+`/`\s*`/`\w+` is followed by a character it
  can never match), so maximal-munch matchers reproduce Python's `re`
  semantics exactly; `finditer`/`search` scan start positions from the
  left, which the scanners below do as well.
-/

/-- Python `\s` (ASCII fragment): the characters stripped by `str.strip`. -/
def isPySpace (c : Char) : Bool :=
  c == ' ' || c == '\t' || c == '\n' || c == '\r' || c == '\x0b' || c == '\x0c'

/-- Python `\w` (ASCII fragment): letters, digits and underscore. -/
def isWordChar (c : Char) : Bool :=
  c.isAlphanum || c == '_'

/-- `str.upper` on one ASCII character (as used by `col_def.upper()`). -/
def pyUpper (l : List Char) : List Char := l.map Char.toUpper

/-- `str.strip()` (ASCII whitespace). -/
def pyStrip (l : List Char) : List Char :=
  ((l.dropWhile isPySpace).reverse.dropWhile isPySpace).reverse

/-- `columns_str.split(',')`: split on every comma, keeping empty pieces. -/
def splitComma : List Char → List (List Char)
  | [] => [[]]
  | c :: rest =>
    if c == ',' then [] :: splitComma rest
    else
      match splitComma rest with
      | [] => [[c]]
      | g :: gs => (c :: g) :: gs

/-- `col_def.split(None, 1)`: drop leading whitespace, take the first
whitespace-free run, drop the following whitespace run; the remainder,
if non-empty, is the second piece. -/
def pySplitWS1 (l : List Char) : List (List Char) :=
  let l1 := l.dropWhile isPySpace
  if l1.isEmpty then []
  else
    let w := l1.takeWhile (fun c => !isPySpace c)
    let rest := (l1.dropWhile (fun c => !isPySpace c)).dropWhile isPySpace
    if rest.isEmpty then [w] else [w, rest]

/-- Python `d[k] = v` on an insertion-ordered dict: overwrite in place,
or append a fresh entry at the end. -/
def dictInsert {α β : Type} [BEq α] (m : List (α × β)) (k : α) (v : β) :
    List (α × β) :=
  match m with
  | [] => [(k, v)]
  | (k', v') :: rest =>
    if k' == k then (k', v) :: rest else (k', v') :: dictInsert rest k v

/-! ## Regex building blocks -/

/-- Match a literal (given in upper case) case-insensitively at the head
of the input, returning the rest. Models a literal word under
`re.IGNORECASE`. -/
def ciLit : List Char → List Char → Option (List Char)
  | [], cs => some cs
  | _ :: _, [] => none
  | p :: ps, c :: cs => if c.toUpper == p then ciLit ps cs else none

/-- `\s+` (greedy, here maximal-munch): at least one whitespace character. -/
def ws1 : List Char → Option (List Char)
  | [] => none
  | c :: rest => if isPySpace c then some (rest.dropWhile isPySpace) else none

/-- `(\w+)` (greedy): a non-empty run of word characters, captured. -/
def word1 : List Char → Option (List Char × List Char)
  | [] => none
  | c :: rest =>
    if isWordChar c then
      some (c :: rest.takeWhile isWordChar, rest.dropWhile isWordChar)
    else none

/-- A literal single character. -/
def lit (ch : Char) : List Char → Option (List Char)
  | [] => none
  | c :: rest => if c == ch then some rest else none

/-- `(.*?)\);` under `re.DOTALL`: the shortest prefix followed by `);`,
returning the captured body and the rest after the `;`. -/
def lazyBody : List Char → Option (List Char × List Char)
  | [] => none
  | [_] => none
  | c1 :: c2 :: rest =>
    if c1 == ')' && c2 == ';' then some ([], rest)
    else
      match lazyBody (c2 :: rest) with
      | some (b, r) => some (c1 :: b, r)
      | none => none

/-- Whether `);` occurs as a substring. -/
def hasCloseSemi : List Char → Bool
  | c1 :: c2 :: rest => (c1 == ')' && c2 == ';') || hasCloseSemi (c2 :: rest)
  | _ => false

/-! ## The three patterns of `database.py` -/

/-- Try `CREATE\s+TABLE\s+(\w+)\s*\((.*?)\);` anchored at the current
position; on success return (table name, body, rest of input). -/
def matchCreateAt (cs : List Char) : Option (List Char × List Char × List Char) := do
  let r1 ← ciLit "CREATE".data cs
  let r2 ← ws1 r1
  let r3 ← ciLit "TABLE".data r2
  let r4 ← ws1 r3
  let (name, r5) ← word1 r4
  let r6 ← lit '(' (r5.dropWhile isPySpace)
  let (body, r7) ← lazyBody r6
  pure (name, body, r7)

theorem dropWhile_len_le (p : Char → Bool) :
    ∀ l : List Char, (l.dropWhile p).length ≤ l.length := by
  intro l
  induction l with
  | nil => simp
  | cons c rest ih =>
    by_cases h : p c
    · simp [List.dropWhile_cons, h]; omega
    · simp [List.dropWhile_cons, h]

theorem ciLit_length {r : List Char} :
    ∀ {ps cs : List Char}, ciLit ps cs = some r → r.length + ps.length = cs.length := by
  intro ps
  induction ps with
  | nil => intro cs h; simp [ciLit] at h; simp [h]
  | cons p ps ih =>
    intro cs h
    cases cs with
    | nil => simp [ciLit] at h
    | cons c cs =>
      simp only [ciLit] at h
      split at h
      · have := ih h; simp [List.length_cons]; omega
      · exact absurd h (by simp)

theorem ws1_length {cs r : List Char} (h : ws1 cs = some r) :
    r.length < cs.length := by
  cases cs with
  | nil => simp [ws1] at h
  | cons c rest =>
    simp only [ws1] at h
    split at h
    · cases h
      calc (rest.dropWhile isPySpace).length ≤ rest.length :=
            dropWhile_len_le isPySpace rest
        _ < (c :: rest).length := by simp
    · exact absurd h (by simp)

theorem word1_length {cs : List Char} {w r : List Char}
    (h : word1 cs = some (w, r)) : r.length < cs.length := by
  cases cs with
  | nil => simp [word1] at h
  | cons c rest =>
    simp only [word1] at h
    split at h
    · cases h
      calc (rest.dropWhile isWordChar).length ≤ rest.length :=
            dropWhile_len_le isWordChar rest
        _ < (c :: rest).length := by simp
    · exact absurd h (by simp)

theorem lit_length {ch : Char} {cs r : List Char} (h : lit ch cs = some r) :
    r.length < cs.length := by
  cases cs with
  | nil => simp [lit] at h
  | cons c rest =>
    simp only [lit] at h
    split at h
    · cases h; simp
    · exact absurd h (by simp)

theorem lazyBody_length {cs : List Char} :
    ∀ {b r : List Char}, lazyBody cs = some (b, r) → r.length < cs.length := by
  induction cs with
  | nil => intro b r h; simp [lazyBody] at h
  | cons c1 rest ih =>
    intro b r h
    cases rest with
    | nil => simp [lazyBody] at h
    | cons c2 rest2 =>
      simp only [lazyBody] at h
      split at h
      · cases h; simp; omega
      · cases hrec : lazyBody (c2 :: rest2) with
        | none => rw [hrec] at h; exact absurd h (by simp)
        | some p =>
          rw [hrec] at h
          cases p with
          | mk b' r' =>
            simp at h
            have hlen := ih hrec
            have hr : r' = r := h.2
            subst hr
            simp [List.length_cons] at hlen ⊢
            omega

theorem matchCreateAt_length {cs n b r : List Char}
    (h : matchCreateAt cs = some (n, b, r)) : r.length < cs.length := by
  simp only [matchCreateAt, bind, Option.bind_eq_some, pure] at h
  obtain ⟨r1, h1, r2, h2, r3, h3, r4, h4, ⟨nm, r5⟩, h5, r6, h6, ⟨bd, r7⟩, h7, hfin⟩ := h
  simp at hfin
  obtain ⟨-, -, hr⟩ := hfin
  subst hr
  have l1 := ciLit_length h1
  have l2 := ws1_length h2
  have l3 := ciLit_length h3
  have l4 := ws1_length h4
  have l5 : r5.length < r4.length := word1_length h5
  have l6 : (r5.dropWhile isPySpace).length ≤ r5.length :=
    dropWhile_len_le isPySpace r5
  have l7 : r6.length < (r5.dropWhile isPySpace).length := lit_length h6
  have l8 := lazyBody_length h7
  simp at l1 l3 l8
  omega

/-- `re.finditer` over the CREATE TABLE pattern: scan start positions
left to right; after each match continue at its end. Returns the list
of (table name, body) captures in order. -/
def scanTables : List Char → List (List Char × List Char)
  | [] => []
  | c :: rest =>
    match h : matchCreateAt (c :: rest) with
    | some (name, body, after) =>
      (name, body) :: scanTables after
    | none => scanTables rest
  termination_by cs => cs.length
  decreasing_by
  · exact matchCreateAt_length h
  · simp

theorem scanTables_nil : scanTables [] = [] := by
  simp [scanTables]

theorem scanTables_match {c : Char} {rest n b after : List Char}
    (h : matchCreateAt (c :: rest) = some (n, b, after)) :
    scanTables (c :: rest) = (n, b) :: scanTables after := by
  rw [scanTables]
  split
  · rename_i heq
    rw [h] at heq
    cases heq
    rfl
  · rename_i heq
    rw [h] at heq
    cases heq

theorem scanTables_skip {c : Char} {rest : List Char}
    (h : matchCreateAt (c :: rest) = none) :
    scanTables (c :: rest) = scanTables rest := by
  rw [scanTables]
  split
  · rename_i heq
    rw [h] at heq
    cases heq
  · rfl

/-- `re.search(r'PRIMARY\s+KEY\s*\((\w+)\)', _, re.IGNORECASE)` at one
position: on success, the captured column name. -/
def pkFindAt (cs : List Char) : Option (List Char) := do
  let r1 ← ciLit "PRIMARY".data cs
  let r2 ← ws1 r1
  let r3 ← ciLit "KEY".data r2
  let r4 ← lit '(' (r3.dropWhile isPySpace)
  let (col, r5) ← word1 r4
  let _ ← lit ')' r5
  pure col

/-- `re.search` scan for the PRIMARY KEY sub-pattern. -/
def pkSearch : List Char → Option (List Char)
  | [] => none
  | c :: rest =>
    match pkFindAt (c :: rest) with
    | some g => some g
    | none => pkSearch rest

/-- `re.search(r'FOREIGN\s+KEY\s*\((\w+)\)\s+REFERENCES\s+(\w+)\s*\((\w+)\)')`
at one position: (local column, referenced table, referenced column). -/
def fkFindAt (cs : List Char) : Option (List Char × List Char × List Char) := do
  let r1 ← ciLit "FOREIGN".data cs
  let r2 ← ws1 r1
  let r3 ← ciLit "KEY".data r2
  let r4 ← lit '(' (r3.dropWhile isPySpace)
  let (lc, r5) ← word1 r4
  let r6 ← lit ')' r5
  let r7 ← ws1 r6
  let r8 ← ciLit "REFERENCES".data r7
  let r9 ← ws1 r8
  let (tbl, r10) ← word1 r9
  let r11 ← lit '(' (r10.dropWhile isPySpace)
  let (rc, r12) ← word1 r11
  let _ ← lit ')' r12
  pure (lc, tbl, rc)

/-- `re.search` scan for the FOREIGN KEY sub-pattern. -/
def fkSearch : List Char → Option (List Char × List Char × List Char)
  | [] => none
  | c :: rest =>
    match fkFindAt (c :: rest) with
    | some g => some g
    | none => fkSearch rest

/-! ## Python values and the parsed schema -/

/-- The fragment of Python values the schema code manipulates:
strings, insertion-ordered dicts with string keys, lists, and `None`. -/
inductive Value : Type where
  | str (s : String)
  | dict (entries : List (String × Value))
  | list (items : List Value)
  | null
  deriving Repr

/-- Accumulator for one table body: the mutable dict
`{"columns": {}, "primary_key": None, "foreign_keys": []}`. -/
structure TableAcc : Type where
  columns : List (List Char × List Char)
  primary_key : Option (List Char)
  foreign_keys : List (List Char)
  deriving Repr

/-- The empty TableInfo each `CREATE TABLE` match starts from. -/
def TableAcc.init : TableAcc := ⟨[], none, []⟩

/-- One iteration of the clause loop of `parse_sql_schema`
(lines 40-68 of `database.py`). -/
def parseClause (acc : TableAcc) (raw : List Char) : TableAcc :=
  let cl := pyStrip raw
  if List.isPrefixOf "PRIMARY KEY".data (pyUpper cl) then
    match pkSearch cl with
    | some p => { acc with primary_key := some p }
    | none => acc
  else if List.isPrefixOf "FOREIGN KEY".data (pyUpper cl) then
    match fkSearch cl with
    | some (lc, tbl, rc) =>
      { acc with foreign_keys :=
          acc.foreign_keys ++ [lc ++ " -> ".data ++ tbl ++ ".".data ++ rc] }
    | none => acc
  else
    match pySplitWS1 cl with
    | n :: ty :: _ => { acc with columns := dictInsert acc.columns n ty }
    | [n] =>
      if n.isEmpty then acc
      else { acc with columns := dictInsert acc.columns n "VARCHAR(255)".data }
    | [] => acc

/-- Parse one captured table body into its TableInfo dict. -/
def parseTableBody (body : List Char) : Value :=
  let clauses := (splitComma body).map pyStrip
  let acc := clauses.foldl parseClause TableAcc.init
  Value.dict
    [("columns", Value.dict (acc.columns.map
        (fun e => (String.mk e.1, Value.str (String.mk e.2))))),
     ("primary_key",
        match acc.primary_key with
        | some p => Value.str (String.mk p)
        | none => Value.null),
     ("foreign_keys", Value.list (acc.foreign_keys.map
        (fun f => Value.str (String.mk f))))]

/-- `parse_sql_schema` (database.py lines 10-71): find every
`CREATE TABLE name (body);` statement and build the schema dict. -/
def parse_sql_schema (sql_statements : String) : Value :=
  Value.dict ((scanTables sql_statements.data).foldl
    (fun sch e => dictInsert sch (String.mk e.1) (parseTableBody e.2)) [])

/-- `validate_schema` (database.py lines 151-170). -/
def validate_schema (schema : Value) : Bool :=
  match schema with
  | Value.dict entries => !entries.isEmpty
  | _ => false

/-! ## The formatter -/

mutual
/-- Python `repr` on the `Value` fragment (string escaping elided:
the fragment is used on strings without quotes or backslashes). -/
def pyRepr : Value → String
  | Value.str s => "'" ++ s ++ "'"
  | Value.null => "None"
  | Value.list items => "[" ++ ", ".intercalate (pyReprList items) ++ "]"
  | Value.dict es => "\x7b" ++ ", ".intercalate (pyReprDict es) ++ "\x7d"

def pyReprList : List Value → List String
  | [] => []
  | v :: rest => pyRepr v :: pyReprList rest

def pyReprDict : List (String × Value) → List String
  | [] => []
  | e :: rest => ("'" ++ e.1 ++ "': " ++ pyRepr e.2) :: pyReprDict rest
end

/-- Python `str` as used by an f-string interpolation. -/
def pyStr : Value → String
  | Value.str s => s
  | v => pyRepr v

/-- Python truthiness on the `Value` fragment. -/
def pyTruthy : Value → Bool
  | Value.str s => !s.isEmpty
  | Value.dict es => !es.isEmpty
  | Value.list items => !items.isEmpty
  | Value.null => false

/-- Python `for x in v`: the sequence of elements iteration yields.
Within the `Value` fragment every truthy value is iterable (a string
yields its characters, a dict its keys), so this is total; `null` is
never iterated by the formatter because it is falsy. -/
def iterElems : Value → List Value
  | Value.str s => s.data.map (fun c => Value.str (String.mk [c]))
  | Value.dict es => es.map (fun e => Value.str e.1)
  | Value.list items => items
  | Value.null => []

/-- The `Primary Key:` line and `Foreign Keys:` block for one table
(database.py lines 138-144): both are guarded by key presence AND
truthiness of the value. -/
def pkAndFkText (entries : List (String × Value)) : String :=
  (match List.lookup "primary_key" entries with
    | some pkV => if pyTruthy pkV then "Primary Key: " ++ pyStr pkV ++ "\n" else ""
    | none => "") ++
  (match List.lookup "foreign_keys" entries with
    | some fkV =>
      if pyTruthy fkV then
        "Foreign Keys:\n" ++
          String.join ((iterElems fkV).map (fun fk => "  - " ++ pyStr fk ++ "\n"))
      else ""
    | none => "")

/-- The inner body of the per-table loop of `format_schema_for_prompt`
(database.py lines 132-144): the text appended after the `Table:` line
for one `table_info`, or the exception it raises. The `Columns:` block
is guarded by key presence only; selecting `.items()` on a non-dict
`columns` value raises `AttributeError` (`.error` carries the Python
exception class name). -/
def formatTableInfo (table_info : Value) : Except String String :=
  match table_info with
  | Value.dict entries =>
    match List.lookup "columns" entries with
    | some colsV =>
      match colsV with
      | Value.dict cols =>
        Except.ok
          (("Columns:\n" ++
              String.join (cols.map
                (fun e => "  - " ++ e.1 ++ ": " ++ pyStr e.2 ++ "\n"))) ++
            pkAndFkText entries)
      | _ => Except.error "AttributeError"
    | none => Except.ok (pkAndFkText entries)
  | _ => Except.ok ""

/-- `format_schema_for_prompt` (database.py lines 126-148). -/
def format_schema_for_prompt (schema : Value) : Except String String :=
  match schema with
  | Value.dict entries =>
    (entries.foldlM
      (fun acc e => do
        let inner ← formatTableInfo e.2
        pure (acc ++ "Table: " ++ e.1 ++ "\n" ++ inner ++ "\n"))
      "DATABASE SCHEMA:\n\n")
  | _ => Except.ok "DATABASE SCHEMA:\n\n"

/-! ## The loader -/

/-- `pathlib.PurePath.name`: the final path component (trailing
slashes dropped; the special components `.`/`..` are not modelled). -/
def pathName (p : List Char) : List Char :=
  ((p.reverse.dropWhile (fun c => c == '/')).takeWhile (fun c => !(c == '/'))).reverse

/-- `pathlib.PurePath.suffix`: the extension of the final component,
with its dot; empty when there is no dot, when the only dot leads a
hidden file, or when the name ends in a dot. -/
def pathSuffix (p : List Char) : List Char :=
  let name := pathName p
  let afterDot := name.reverse.takeWhile (fun c => !(c == '.'))
  if afterDot.length == name.length then []
  else if afterDot.isEmpty then []
  else if afterDot.length + 1 == name.length then []
  else '.' :: afterDot.reverse

/-- `str.lower` (ASCII). -/
def pyLower (l : List Char) : List Char := l.map Char.toLower

/-- The errors `load_schema_from_file` can raise. `decodeFailure`
stands for any exception a JSON/YAML decoder raises, re-raised
unchanged (lines 106-108 log then `raise`). -/
inductive LoadError : Type where
  | notFound (path : String)
  | unsupportedFormat (ext : String)
  | decodeFailure (msg : String)
  deriving Repr, DecidableEq

/-- `load_schema_from_file` (database.py lines 74-109). The file
system is a finite map from path to contents (`Path.exists` and
`open` both consult it); the JSON and YAML decoders are opaque
parameters, since the code treats them as black boxes. -/
def load_schema_from_file
    (fs : List (String × String))
    (jsonDecode yamlDecode : String → Except LoadError Value)
    (file_path : String) : Except LoadError Value :=
  match List.lookup file_path fs with
  | none => Except.error (LoadError.notFound file_path)
  | some content =>
    let ext := pyLower (pathSuffix file_path.data)
    if ext == ".json".data then jsonDecode content
    else if ext == ".yaml".data || ext == ".yml".data then yamlDecode content
    else if ext == ".sql".data then Except.ok (parse_sql_schema content)
    else Except.error (LoadError.unsupportedFormat (String.mk (pathSuffix file_path.data)))

/-! ## General helper lemmas -/

theorem mem_dictInsert {α β : Type} [BEq α] {m : List (α × β)} {k : α} {v : β}
    {e : α × β} (h : e ∈ dictInsert m k v) : e ∈ m ∨ e.2 = v := by
  induction m with
  | nil =>
    simp [dictInsert] at h
    subst h; right; rfl
  | cons hd tl ih =>
    simp only [dictInsert] at h
    split at h
    · rcases List.mem_cons.mp h with h1 | h1
      · subst h1; right; rfl
      · left; exact List.mem_cons_of_mem _ h1
    · rcases List.mem_cons.mp h with h1 | h1
      · subst h1; left; exact List.mem_cons_self _ _
      · rcases ih h1 with h2 | h2
        · left; exact List.mem_cons_of_mem _ h2
        · right; exact h2

/-- `isDictV v`: whether a Python value is a `dict`. -/
def isDictV : Value → Bool
  | Value.dict _ => true
  | _ => false

/-! ## Claim C4: the validator -/

/-- C4: `validate_schema` returns true iff the input is a mapping with
at least one entry; in particular the empty mapping and a plain string
are rejected, so an empty extraction result fails validation. -/
theorem validate_schema_true_iff_nonempty_dict :
    (∀ v : Value, validate_schema v = true ↔ ∃ es, v = Value.dict es ∧ es ≠ []) ∧
    validate_schema (Value.dict []) = false ∧
    (∀ s : String, validate_schema (Value.str s) = false) ∧
    validate_schema (parse_sql_schema "") = false := by
  refine ⟨?_, rfl, fun s => rfl, ?_⟩
  case refine_2 =>
    have h0 : scanTables "".data = [] := scanTables_nil
    simp [parse_sql_schema, h0, validate_schema]
  intro v
  cases v with
  | dict es =>
    simp [validate_schema]
  | str s => simp [validate_schema]
  | list items => simp [validate_schema]
  | null => simp [validate_schema]

theorem validate_schema_true_iff_nonempty_dict_witness :
    validate_schema (Value.dict [("t", Value.null)]) = true :=
  (validate_schema_true_iff_nonempty_dict.1 _).mpr ⟨_, rfl, by simp⟩

/-! ## Claim C9: shape of every parsed table entry -/

/-- The shape invariant of one parsed `TableInfo`: exactly the three
keys `columns`, `primary_key`, `foreign_keys` in that order, with
`columns` a dict of strings, `primary_key` either `None` or a string,
and `foreign_keys` a list of strings. -/
def tableShapeOK : Value → Bool
  | Value.dict [(k1, Value.dict cols), (k2, pkV), (k3, Value.list fks)] =>
    k1 == "columns" && k2 == "primary_key" && k3 == "foreign_keys" &&
    cols.all (fun e => match e.2 with | Value.str _ => true | _ => false) &&
    (match pkV with | Value.null => true | Value.str _ => true | _ => false) &&
    fks.all (fun v => match v with | Value.str _ => true | _ => false)
  | _ => false

theorem tableShapeOK_parseTableBody (body : List Char) :
    tableShapeOK (parseTableBody body) = true := by
  unfold parseTableBody
  cases hpk : ((splitComma body).map pyStrip).foldl parseClause TableAcc.init
    |>.primary_key with
  | none =>
    simp [tableShapeOK, hpk, List.all_map]
    rintro a b x x1 - - rfl
    rfl
  | some p =>
    simp [tableShapeOK, hpk, List.all_map]
    rintro a b x x1 - - rfl
    rfl

/-- C9: every table entry produced by `parse_sql_schema`, on every
input, is a dict with exactly the keys `columns` (a string-to-string
mapping), `primary_key` (`None` or a string) and `foreign_keys` (a
list of strings). -/
theorem parse_sql_schema_shape (s : String) :
    ∃ es, parse_sql_schema s = Value.dict es ∧
      ∀ e ∈ es, tableShapeOK e.2 = true := by
  refine ⟨_, rfl, ?_⟩
  have main : ∀ (L : List (List Char × List Char)) (acc : List (String × Value)),
      (∀ e ∈ acc, tableShapeOK e.2 = true) →
      ∀ e ∈ L.foldl
        (fun sch x => dictInsert sch (String.mk x.1) (parseTableBody x.2)) acc,
        tableShapeOK e.2 = true := by
    intro L
    induction L with
    | nil => intro acc hacc e he; exact hacc e he
    | cons hd tl ih =>
      intro acc hacc e he
      refine ih _ ?_ e he
      intro e' he'
      rcases mem_dictInsert he' with h1 | h1
      · exact hacc e' h1
      · rw [h1]; exact tableShapeOK_parseTableBody hd.2
  exact main _ [] (by simp)

/-! ## Claim C2: defensiveness of the formatter -/

/-- C2 counterexample: a schema whose table entry is a dict with a
non-mapping `columns` value makes `format_schema_for_prompt` raise
`AttributeError` (calling `.items()` on a `str`), so the formatter does
not tolerate every malformed `TableInfo` field. -/
theorem format_schema_columns_not_dict_raises :
    format_schema_for_prompt
      (Value.dict [("t", Value.dict [("columns", Value.str "oops")])]) =
      Except.error "AttributeError" := rfl

/-- C2 (amended): the formatter skips only *non-dict* `TableInfo`
entries (emitting just the `Table:` line for them); a `TableInfo` dict
whose `columns` value is not a mapping raises `AttributeError`. -/
theorem format_schema_defensive_amended :
    (∀ (nm : String) (v : Value), isDictV v = false →
      format_schema_for_prompt (Value.dict [(nm, v)]) =
        Except.ok ("DATABASE SCHEMA:\n\nTable: " ++ nm ++ "\n\n")) ∧
    (∀ (nm : String) (colsV : Value), isDictV colsV = false →
      format_schema_for_prompt
        (Value.dict [(nm, Value.dict [("columns", colsV)])]) =
        Except.error "AttributeError") := by
  constructor
  · intro nm v hv
    have hfmt : formatTableInfo v = Except.ok "" := by
      cases v with
      | dict es => simp [isDictV] at hv
      | str s => rfl
      | list items => rfl
      | null => rfl
    simp [format_schema_for_prompt, List.foldlM, hfmt]
    apply String.ext
    simp
  · intro nm colsV hv
    have hfmt : formatTableInfo (Value.dict [("columns", colsV)]) =
        Except.error "AttributeError" := by
      cases colsV with
      | dict es => simp [isDictV] at hv
      | str s => rfl
      | list items => rfl
      | null => rfl
    simp [format_schema_for_prompt, List.foldlM, hfmt]

theorem format_schema_defensive_amended_witness :
    format_schema_for_prompt (Value.dict [("u", Value.str "v")]) =
      Except.ok "DATABASE SCHEMA:\n\nTable: u\n\n" :=
  format_schema_defensive_amended.1 "u" (Value.str "v") rfl

/-! ## Claim C3: loader error handling -/

/-- C3: loading a nonexistent path yields `NotFound` carrying the path,
for every pair of decoders (so before any decode is attempted); loading
an existing file whose (lower-cased) extension is not `.json`, `.yaml`,
`.yml` or `.sql` yields `UnsupportedFormat` carrying the offending
extension, again for every pair of decoders and every file content. -/
theorem load_schema_error_cases :
    (∀ (fs : List (String × String)) (jd yd : String → Except LoadError Value)
        (path : String), List.lookup path fs = none →
      load_schema_from_file fs jd yd path =
        Except.error (LoadError.notFound path)) ∧
    (∀ (fs : List (String × String)) (jd yd : String → Except LoadError Value)
        (path content : String), List.lookup path fs = some content →
      pyLower (pathSuffix path.data) ≠ ".json".data →
      pyLower (pathSuffix path.data) ≠ ".yaml".data →
      pyLower (pathSuffix path.data) ≠ ".yml".data →
      pyLower (pathSuffix path.data) ≠ ".sql".data →
      load_schema_from_file fs jd yd path =
        Except.error (LoadError.unsupportedFormat
          (String.mk (pathSuffix path.data)))) := by
  constructor
  · intro fs jd yd path h
    simp [load_schema_from_file, h]
  · intro fs jd yd path content h h1 h2 h3 h4
    simp [load_schema_from_file, h, h1, h2, h3, h4]

theorem load_schema_error_cases_witness :
    load_schema_from_file [("schema.txt", "CREATE TABLE t (a INT);")]
        (fun _ => Except.ok Value.null) (fun _ => Except.ok Value.null)
        "missing.json" = Except.error (LoadError.notFound "missing.json") ∧
    load_schema_from_file [("schema.txt", "CREATE TABLE t (a INT);")]
        (fun _ => Except.ok Value.null) (fun _ => Except.ok Value.null)
        "schema.txt" = Except.error (LoadError.unsupportedFormat ".txt") :=
  ⟨load_schema_error_cases.1 _ _ _ _ (by decide),
   load_schema_error_cases.2 [("schema.txt", "CREATE TABLE t (a INT);")]
     (fun _ => Except.ok Value.null) (fun _ => Except.ok Value.null)
     "schema.txt" "CREATE TABLE t (a INT);" (by decide)
     (by decide) (by decide) (by decide) (by decide)⟩

/-! ## Claim C10: conditional structure of the per-table formatting -/

/-- C10: a `TableInfo` whose `columns` key maps to an empty dict still
gets the `Columns:` header with nothing under it (the guard is key
presence), while the `Primary Key:` line and the `Foreign Keys:` header
appear only when their key is present with a truthy value; with all
keys absent but `columns`, only the bare `Columns:` header is emitted. -/
theorem formatTableInfo_guards :
    (∀ (pkv : Value) (fks : List Value),
      formatTableInfo (Value.dict
        [("columns", Value.dict []),
         ("primary_key", pkv),
         ("foreign_keys", Value.list fks)]) =
      Except.ok ("Columns:\n" ++
        (if pyTruthy pkv then "Primary Key: " ++ pyStr pkv ++ "\n" else "") ++
        (if fks.isEmpty then ""
         else "Foreign Keys:\n" ++
           String.join (fks.map (fun fk => "  - " ++ pyStr fk ++ "\n"))))) ∧
    formatTableInfo (Value.dict [("columns", Value.dict [])]) =
      Except.ok "Columns:\n" := by
  constructor
  · intro pkv fks
    simp only [formatTableInfo, pkAndFkText, List.lookup, iterElems]
    norm_num
    cases hfk : fks.isEmpty with
    | true =>
      have : fks = [] := by
        cases fks with
        | nil => rfl
        | cons a l => simp at hfk
      subst this
      simp [pyTruthy, String.join, String.append_assoc]
    | false =>
      have hne : fks ≠ [] := by
        intro hc; subst hc; simp at hfk
      simp [pyTruthy, hfk, String.join, String.append_assoc]
  · rfl

/-! ## Claim C8: concrete formatting example -/

/-- C8: formatting the one-table schema of the claim yields exactly the
expected text: it starts with `DATABASE SCHEMA:` and a blank line,
contains the `Table: t`, `  - a: INT` and `Primary Key: a` lines, and
contains no `Foreign Keys:` header since the list is empty. -/
theorem format_schema_concrete_example :
    format_schema_for_prompt (Value.dict [("t", Value.dict
        [("columns", Value.dict [("a", Value.str "INT")]),
         ("primary_key", Value.str "a"),
         ("foreign_keys", Value.list [])])]) =
      Except.ok "DATABASE SCHEMA:\n\nTable: t\nColumns:\n  - a: INT\nPrimary Key: a\n\n" ∧
    List.IsPrefix "DATABASE SCHEMA:\n\n".data
      "DATABASE SCHEMA:\n\nTable: t\nColumns:\n  - a: INT\nPrimary Key: a\n\n".data ∧
    List.IsInfix "Table: t\n".data
      "DATABASE SCHEMA:\n\nTable: t\nColumns:\n  - a: INT\nPrimary Key: a\n\n".data ∧
    List.IsInfix "  - a: INT\n".data
      "DATABASE SCHEMA:\n\nTable: t\nColumns:\n  - a: INT\nPrimary Key: a\n\n".data ∧
    List.IsInfix "Primary Key: a\n".data
      "DATABASE SCHEMA:\n\nTable: t\nColumns:\n  - a: INT\nPrimary Key: a\n\n".data ∧
    ¬ List.IsInfix "Foreign Keys:".data
      "DATABASE SCHEMA:\n\nTable: t\nColumns:\n  - a: INT\nPrimary Key: a\n\n".data := by
  refine ⟨rfl, by decide, by decide, by decide, by decide, by decide⟩

/-! ## String toolkit for the parser proofs -/

theorem word_not_space {c : Char} (h : isWordChar c = true) :
    isPySpace c = false := by
  by_contra hne
  have hsp : isPySpace c = true := by
    cases hx : isPySpace c with
    | true => rfl
    | false => exact absurd hx hne
  simp only [isPySpace, Bool.or_eq_true, beq_iff_eq] at hsp
  rcases hsp with ((((h1 | h1) | h1) | h1) | h1) | h1 <;>
    (subst h1; simp [isWordChar, Char.isAlphanum, Char.isAlpha,
      Char.isUpper, Char.isLower, Char.isDigit] at h)

theorem takeWhile_append_cons {p : Char → Bool} {l : List Char} {c : Char}
    (r : List Char) (hl : ∀ a ∈ l, p a = true) (hc : p c = false) :
    (l ++ c :: r).takeWhile p = l := by
  induction l with
  | nil => simp [List.takeWhile_cons, hc]
  | cons a as ih =>
    have ha : p a = true := hl a (by simp)
    simp only [List.cons_append, List.takeWhile_cons, ha]
    simp [ih (fun x hx => hl x (by simp [hx]))]

theorem dropWhile_append_cons {p : Char → Bool} {l : List Char} {c : Char}
    (r : List Char) (hl : ∀ a ∈ l, p a = true) (hc : p c = false) :
    (l ++ c :: r).dropWhile p = c :: r := by
  induction l with
  | nil => simp [List.dropWhile_cons, hc]
  | cons a as ih =>
    have ha : p a = true := hl a (by simp)
    simp only [List.cons_append, List.dropWhile_cons, ha, if_true]
    exact ih (fun x hx => hl x (by simp [hx]))

theorem dropWhile_append_all {p : Char → Bool} {l : List Char}
    (r : List Char) (hl : ∀ a ∈ l, p a = true) :
    (l ++ r).dropWhile p = r.dropWhile p := by
  induction l with
  | nil => simp
  | cons a as ih =>
    have ha : p a = true := hl a (by simp)
    simp only [List.cons_append, List.dropWhile_cons, ha, if_true]
    exact ih (fun x hx => hl x (by simp [hx]))

theorem takeWhile_all {p : Char → Bool} {l : List Char}
    (hl : ∀ a ∈ l, p a = true) : l.takeWhile p = l := by
  induction l with
  | nil => simp
  | cons a as ih =>
    have ha : p a = true := hl a (by simp)
    simp only [List.takeWhile_cons, ha, if_true]
    simp [ih (fun x hx => hl x (by simp [hx]))]

theorem dropWhile_all {p : Char → Bool} {l : List Char}
    (hl : ∀ a ∈ l, p a = true) : l.dropWhile p = [] := by
  induction l with
  | nil => simp
  | cons a as ih =>
    have ha : p a = true := hl a (by simp)
    simp only [List.dropWhile_cons, ha, if_true]
    exact ih (fun x hx => hl x (by simp [hx]))

theorem pyStrip_sandwich {l : List Char}
    (h1 : ∀ c, l.head? = some c → isPySpace c = false)
    (h2 : ∀ c, l.getLast? = some c → isPySpace c = false)
    {u v : List Char}
    (hu : ∀ c ∈ u, isPySpace c = true)
    (hv : ∀ c ∈ v, isPySpace c = true) :
    pyStrip (u ++ l ++ v) = l := by
  unfold pyStrip
  rw [List.append_assoc, dropWhile_append_all _ hu]
  cases l with
  | nil =>
    simp only [List.nil_append]
    rw [dropWhile_all hv]
    simp
  | cons c0 l0 =>
    have hc0 : isPySpace c0 = false := h1 c0 rfl
    simp only [List.cons_append, List.dropWhile_cons, hc0, if_false,
      Bool.false_eq_true]
    have hform : c0 :: (l0 ++ v) = (c0 :: l0) ++ v := by simp
    rw [hform, List.reverse_append,
      dropWhile_append_all _ (fun x hx => hv x (List.mem_reverse.mp hx))]
    cases hrev : (c0 :: l0).reverse with
    | nil => exact absurd hrev (by simp)
    | cons d ds =>
      have hd : isPySpace d = false := by
        apply h2
        rw [← List.head?_reverse, hrev]; rfl
      rw [List.dropWhile_cons_of_neg (by simp [hd]), ← hrev,
        List.reverse_reverse]

theorem splitComma_no_comma {l : List Char}
    (hl : ∀ c ∈ l, (c == ',') = false) : splitComma l = [l] := by
  induction l with
  | nil => rfl
  | cons a as ih =>
    have ha : (a == ',') = false := hl a (by simp)
    simp only [splitComma, ha, Bool.false_eq_true, if_false]
    rw [ih (fun x hx => hl x (by simp [hx]))]

theorem splitComma_append {l : List Char} (r : List Char)
    (hl : ∀ c ∈ l, (c == ',') = false) :
    splitComma (l ++ ',' :: r) = l :: splitComma r := by
  induction l with
  | nil => simp [splitComma]
  | cons a as ih =>
    have ha : (a == ',') = false := hl a (by simp)
    simp only [List.cons_append, splitComma, ha, Bool.false_eq_true, if_false,
      List.append_eq]
    rw [ih (fun x hx => hl x (by simp [hx]))]

theorem lazyBody_append (r : List Char) :
    ∀ {body : List Char}, hasCloseSemi body = false →
    lazyBody (body ++ ')' :: ';' :: r) = some (body, r) := by
  intro body
  induction body with
  | nil => intro hb; simp [lazyBody]
  | cons c0 body0 ih =>
    intro hb
    cases body0 with
    | nil => simp [lazyBody]
    | cons c1 body1 =>
      simp only [hasCloseSemi, Bool.or_eq_false_iff] at hb
      have hrec := ih hb.2
      simp only [List.cons_append] at hrec ⊢
      simp only [lazyBody, hb.1, Bool.false_eq_true, if_false]
      rw [hrec]

/-! ## Evaluating the sub-pattern searches on well-formed clauses -/

theorem pyStrip_id {l : List Char}
    (h1 : ∀ c, l.head? = some c → isPySpace c = false)
    (h2 : ∀ c, l.getLast? = some c → isPySpace c = false) :
    pyStrip l = l := by
  have := pyStrip_sandwich h1 h2 (u := []) (v := [])
    (by intro c hc; simp at hc) (by intro c hc; simp at hc)
  simpa using this

theorem pkFindAt_hit (p : List Char) (hne : p ≠ [])
    (hw : ∀ c ∈ p, isWordChar c = true) :
    pkFindAt ('P':: 'R':: 'I':: 'M':: 'A':: 'R':: 'Y':: ' ':: 'K':: 'E':: 'Y':: '('::
      (p ++ [')'])) = some p := by
  obtain ⟨c0, ps, rfl⟩ := List.exists_cons_of_ne_nil hne
  have hc0 : isWordChar c0 = true := hw c0 (by simp)
  have hw' : ∀ c ∈ ps, isWordChar c = true := fun c hc => hw c (by simp [hc])
  have ht : (ps ++ [')']).takeWhile isWordChar = ps := by
    have := takeWhile_append_cons (p := isWordChar) (l := ps) (c := ')')
      [] hw' (by decide)
    simpa using this
  have hd : (ps ++ [')']).dropWhile isWordChar = [')'] := by
    have := dropWhile_append_cons (p := isWordChar) (l := ps) (c := ')')
      [] hw' (by decide)
    simpa using this
  simp +decide [pkFindAt, ciLit, ws1, word1, lit, hc0, ht, hd, bind, Option.bind]

theorem pkSearch_hit (p : List Char) (hne : p ≠ [])
    (hw : ∀ c ∈ p, isWordChar c = true) :
    pkSearch ('P':: 'R':: 'I':: 'M':: 'A':: 'R':: 'Y':: ' ':: 'K':: 'E':: 'Y':: '('::
      (p ++ [')'])) = some p := by
  rw [pkSearch, pkFindAt_hit p hne hw]

theorem fkFindAt_hit (x y z : List Char)
    (hxe : x ≠ []) (hx : ∀ c ∈ x, isWordChar c = true)
    (hye : y ≠ []) (hy : ∀ c ∈ y, isWordChar c = true)
    (hze : z ≠ []) (hz : ∀ c ∈ z, isWordChar c = true) :
    fkFindAt ('F':: 'O':: 'R':: 'E':: 'I':: 'G':: 'N':: ' ':: 'K':: 'E':: 'Y':: ' ':: '('::
      (x ++ ')':: ' ':: 'R':: 'E':: 'F':: 'E':: 'R':: 'E':: 'N':: 'C':: 'E':: 'S':: ' '::
        (y ++ '('::(z ++ [')'])))) = some (x, y, z) := by
  obtain ⟨cx, xs, rfl⟩ := List.exists_cons_of_ne_nil hxe
  obtain ⟨cy, ys, rfl⟩ := List.exists_cons_of_ne_nil hye
  obtain ⟨cz, zs, rfl⟩ := List.exists_cons_of_ne_nil hze
  have hcx : isWordChar cx = true := hx cx (by simp)
  have hcy : isWordChar cy = true := hy cy (by simp)
  have hcz : isWordChar cz = true := hz cz (by simp)
  have hcysp : isPySpace cy = false := word_not_space hcy
  have hx' : ∀ c ∈ xs, isWordChar c = true := fun c hc => hx c (by simp [hc])
  have hy' : ∀ c ∈ ys, isWordChar c = true := fun c hc => hy c (by simp [hc])
  have hz' : ∀ c ∈ zs, isWordChar c = true := fun c hc => hz c (by simp [hc])
  have htx : (xs ++ ')':: ' ':: 'R':: 'E':: 'F':: 'E':: 'R':: 'E':: 'N':: 'C':: 'E':: 'S':: ' '::
      cy :: (ys ++ '('::cz::(zs ++ [')']))).takeWhile isWordChar = xs :=
    takeWhile_append_cons _ hx' (by decide)
  have hdx : (xs ++ ')':: ' ':: 'R':: 'E':: 'F':: 'E':: 'R':: 'E':: 'N':: 'C':: 'E':: 'S':: ' '::
      cy :: (ys ++ '('::cz::(zs ++ [')']))).dropWhile isWordChar =
      ')':: ' ':: 'R':: 'E':: 'F':: 'E':: 'R':: 'E':: 'N':: 'C':: 'E':: 'S':: ' '::
      cy :: (ys ++ '('::cz::(zs ++ [')'])) :=
    dropWhile_append_cons _ hx' (by decide)
  have hty : (ys ++ '('::cz::(zs ++ [')'])).takeWhile isWordChar = ys :=
    takeWhile_append_cons _ hy' (by decide)
  have hdy : (ys ++ '('::cz::(zs ++ [')'])).dropWhile isWordChar =
      '('::cz::(zs ++ [')']) :=
    dropWhile_append_cons _ hy' (by decide)
  have htz : (zs ++ [')']).takeWhile isWordChar = zs := by
    have := takeWhile_append_cons (p := isWordChar) (l := zs) (c := ')')
      [] hz' (by decide)
    simpa using this
  have hdz : (zs ++ [')']).dropWhile isWordChar = [')'] := by
    have := dropWhile_append_cons (p := isWordChar) (l := zs) (c := ')')
      [] hz' (by decide)
    simpa using this
  simp +decide [fkFindAt, ciLit, ws1, word1, lit, List.dropWhile_cons,
    hcx, hcy, hcz, hcysp, htx, hdx, hty, hdy, htz, hdz, bind, Option.bind]

theorem fkSearch_hit (x y z : List Char)
    (hxe : x ≠ []) (hx : ∀ c ∈ x, isWordChar c = true)
    (hye : y ≠ []) (hy : ∀ c ∈ y, isWordChar c = true)
    (hze : z ≠ []) (hz : ∀ c ∈ z, isWordChar c = true) :
    fkSearch ('F':: 'O':: 'R':: 'E':: 'I':: 'G':: 'N':: ' ':: 'K':: 'E':: 'Y':: ' ':: '('::
      (x ++ ')':: ' ':: 'R':: 'E':: 'F':: 'E':: 'R':: 'E':: 'N':: 'C':: 'E':: 'S':: ' '::
        (y ++ '('::(z ++ [')'])))) = some (x, y, z) := by
  rw [fkSearch, fkFindAt_hit x y z hxe hx hye hy hze hz]

/-! ## Behavior of `parseClause` on each clause shape -/

theorem parseClause_pk (acc : TableAcc) (p : List Char) (hne : p ≠ [])
    (hw : ∀ c ∈ p, isWordChar c = true) :
    parseClause acc
      ('P':: 'R':: 'I':: 'M':: 'A':: 'R':: 'Y':: ' ':: 'K':: 'E':: 'Y':: '('::(p ++ [')'])) =
      { acc with primary_key := some p } := by
  have hstrip : pyStrip
      ('P':: 'R':: 'I':: 'M':: 'A':: 'R':: 'Y':: ' ':: 'K':: 'E':: 'Y':: '('::(p ++ [')'])) =
      'P':: 'R':: 'I':: 'M':: 'A':: 'R':: 'Y':: ' ':: 'K':: 'E':: 'Y':: '('::(p ++ [')']) := by
    apply pyStrip_id
    · intro c hc
      simp at hc
      subst hc; decide
    · intro c hc
      rw [show 'P':: 'R':: 'I':: 'M':: 'A':: 'R':: 'Y':: ' ':: 'K':: 'E':: 'Y':: '('::(p ++ [')']) =
        (['P','R','I','M','A','R','Y',' ','K','E','Y','('] ++ p) ++ [')'] from by simp] at hc
      rw [List.getLast?_concat] at hc
      cases hc; decide
  have hpre : List.isPrefixOf "PRIMARY KEY".data
      (pyUpper ('P':: 'R':: 'I':: 'M':: 'A':: 'R':: 'Y':: ' ':: 'K':: 'E':: 'Y':: '('::(p ++ [')']))) = true := by
    simp +decide [pyUpper, List.isPrefixOf]
  have hsearch := pkSearch_hit p hne hw
  simp [parseClause, hstrip, hpre, hsearch]

theorem parseClause_fk (acc : TableAcc) (x y z : List Char)
    (hxe : x ≠ []) (hx : ∀ c ∈ x, isWordChar c = true)
    (hye : y ≠ []) (hy : ∀ c ∈ y, isWordChar c = true)
    (hze : z ≠ []) (hz : ∀ c ∈ z, isWordChar c = true) :
    parseClause acc
      ('F':: 'O':: 'R':: 'E':: 'I':: 'G':: 'N':: ' ':: 'K':: 'E':: 'Y':: ' ':: '('::
        (x ++ ')':: ' ':: 'R':: 'E':: 'F':: 'E':: 'R':: 'E':: 'N':: 'C':: 'E':: 'S':: ' '::
          (y ++ '('::(z ++ [')'])))) =
      { acc with foreign_keys :=
          acc.foreign_keys ++ [x ++ " -> ".data ++ y ++ ".".data ++ z] } := by
  have hstrip : pyStrip
      ('F':: 'O':: 'R':: 'E':: 'I':: 'G':: 'N':: ' ':: 'K':: 'E':: 'Y':: ' ':: '('::
        (x ++ ')':: ' ':: 'R':: 'E':: 'F':: 'E':: 'R':: 'E':: 'N':: 'C':: 'E':: 'S':: ' '::
          (y ++ '('::(z ++ [')'])))) =
      'F':: 'O':: 'R':: 'E':: 'I':: 'G':: 'N':: ' ':: 'K':: 'E':: 'Y':: ' ':: '('::
        (x ++ ')':: ' ':: 'R':: 'E':: 'F':: 'E':: 'R':: 'E':: 'N':: 'C':: 'E':: 'S':: ' '::
          (y ++ '('::(z ++ [')']))) := by
    apply pyStrip_id
    · intro c hc
      simp at hc
      subst hc; decide
    · intro c hc
      rw [show 'F':: 'O':: 'R':: 'E':: 'I':: 'G':: 'N':: ' ':: 'K':: 'E':: 'Y':: ' ':: '('::
          (x ++ ')':: ' ':: 'R':: 'E':: 'F':: 'E':: 'R':: 'E':: 'N':: 'C':: 'E':: 'S':: ' '::
            (y ++ '('::(z ++ [')']))) =
        ((['F','O','R','E','I','G','N',' ','K','E','Y',' ','('] ++ x ++
          [')',' ','R','E','F','E','R','E','N','C','E','S',' '] ++ y ++ ['('] ++ z)
            ++ [')']) from by simp] at hc
      rw [List.getLast?_concat] at hc
      cases hc; decide
  have hpk : List.isPrefixOf "PRIMARY KEY".data
      (pyUpper ('F':: 'O':: 'R':: 'E':: 'I':: 'G':: 'N':: ' ':: 'K':: 'E':: 'Y':: ' ':: '('::
        (x ++ ')':: ' ':: 'R':: 'E':: 'F':: 'E':: 'R':: 'E':: 'N':: 'C':: 'E':: 'S':: ' '::
          (y ++ '('::(z ++ [')'])))))  = false := by
    simp +decide [pyUpper, List.isPrefixOf]
  have hpre : List.isPrefixOf "FOREIGN KEY".data
      (pyUpper ('F':: 'O':: 'R':: 'E':: 'I':: 'G':: 'N':: ' ':: 'K':: 'E':: 'Y':: ' ':: '('::
        (x ++ ')':: ' ':: 'R':: 'E':: 'F':: 'E':: 'R':: 'E':: 'N':: 'C':: 'E':: 'S':: ' '::
          (y ++ '('::(z ++ [')'])))))  = true := by
    simp +decide [pyUpper, List.isPrefixOf]
  have hsearch := fkSearch_hit x y z hxe hx hye hy hze hz
  simp [parseClause, hstrip, hpk, hpre, hsearch]

theorem parseClause_fk_fail (acc : TableAcc) (cl : List Char)
    (h1 : List.isPrefixOf "FOREIGN KEY".data (pyUpper (pyStrip cl)) = true)
    (h2 : fkSearch (pyStrip cl) = none) :
    parseClause acc cl = acc := by
  have hpk : List.isPrefixOf "PRIMARY KEY".data (pyUpper (pyStrip cl)) = false := by
    cases hu : pyUpper (pyStrip cl) with
    | nil =>
      rw [hu] at h1
      simp [List.isPrefixOf] at h1
    | cons c rest =>
      rw [hu] at h1
      have hc : c = 'F' := by
        simp [List.isPrefixOf, Bool.and_eq_true] at h1
        have := h1.1
        simp [beq_iff_eq] at this
        exact this.symm
      subst hc
      simp +decide [List.isPrefixOf]
  simp [parseClause, hpk, h1, h2]

theorem parseClause_keeps_columns (acc : TableAcc) (cl : List Char)
    (h : List.isPrefixOf "PRIMARY KEY".data (pyUpper (pyStrip cl)) = true ∨
         List.isPrefixOf "FOREIGN KEY".data (pyUpper (pyStrip cl)) = true) :
    (parseClause acc cl).columns = acc.columns := by
  by_cases h1 : List.isPrefixOf "PRIMARY KEY".data (pyUpper (pyStrip cl)) = true
  · simp only [parseClause, h1, if_true]
    cases pkSearch (pyStrip cl) <;> rfl
  · have h1' : List.isPrefixOf "PRIMARY KEY".data (pyUpper (pyStrip cl)) = false := by
      cases hx : List.isPrefixOf "PRIMARY KEY".data (pyUpper (pyStrip cl)) with
      | true => exact absurd hx h1
      | false => rfl
    rcases h with h | h2
    · exact absurd h h1
    · simp only [parseClause, h1', Bool.false_eq_true, if_false, h2, if_true]
      cases fkSearch (pyStrip cl) with
      | none => rfl
      | some g =>
        cases g with
        | mk lc rest =>
          cases rest with
          | mk tbl rc => rfl

theorem mem_of_getLast?_eq {l : List Char} {c : Char}
    (h : l.getLast? = some c) : c ∈ l := by
  induction l with
  | nil => simp at h
  | cons a as ih =>
    cases as with
    | nil =>
      simp [List.getLast?] at h
      simp [h]
    | cons b bs =>
      rw [List.getLast?_cons_cons] at h
      exact List.mem_cons_of_mem _ (ih h)

theorem parseClause_column2 (acc : TableAcc) (n ws t : List Char)
    (hn : n ≠ []) (hnw : ∀ c ∈ n, isPySpace c = false)
    (hws : ws ≠ []) (hwsp : ∀ c ∈ ws, isPySpace c = true)
    (hte : t ≠ []) (hth : ∀ c, t.head? = some c → isPySpace c = false)
    (htl : ∀ c, t.getLast? = some c → isPySpace c = false)
    (hnp : List.isPrefixOf "PRIMARY KEY".data (pyUpper (n ++ ws ++ t)) = false)
    (hnf : List.isPrefixOf "FOREIGN KEY".data (pyUpper (n ++ ws ++ t)) = false) :
    parseClause acc (n ++ ws ++ t) =
      { acc with columns := dictInsert acc.columns n t } := by
  obtain ⟨c0, n', rfl⟩ := List.exists_cons_of_ne_nil hn
  obtain ⟨s0, ws', rfl⟩ := List.exists_cons_of_ne_nil hws
  obtain ⟨d0, t', rfl⟩ := List.exists_cons_of_ne_nil hte
  have hc0 : isPySpace c0 = false := hnw c0 (by simp)
  have hs0 : isPySpace s0 = true := hwsp s0 (by simp)
  have hd0 : isPySpace d0 = false := hth d0 rfl
  have hws' : ∀ c ∈ ws', isPySpace c = true := fun c hc => hwsp c (by simp [hc])
  have halln : ∀ a ∈ c0 :: n', (fun c => !isPySpace c) a = true := by
    intro a ha
    simp [hnw a ha]
  have hns0 : (fun c => !isPySpace c) s0 = false := by simp [hs0]
  have hstrip : pyStrip ((c0 :: n') ++ (s0 :: ws') ++ (d0 :: t')) =
      (c0 :: n') ++ (s0 :: ws') ++ (d0 :: t') := by
    apply pyStrip_id
    · intro c hc
      simp at hc
      subst hc; exact hc0
    · intro c hc
      rw [List.getLast?_append, List.getLast?_append] at hc
      cases hlast : (d0 :: t').getLast? with
      | none => exact absurd hlast (by simp)
      | some d =>
        rw [hlast] at hc
        simp at hc
        subst hc
        exact htl d hlast
  have hdrop1 : ((c0 :: n') ++ (s0 :: ws') ++ (d0 :: t')).dropWhile isPySpace =
      (c0 :: n') ++ (s0 :: ws') ++ (d0 :: t') := by
    simp [List.dropWhile_cons, hc0]
  have htake : ((c0 :: n') ++ (s0 :: ws') ++ (d0 :: t')).takeWhile
      (fun c => !isPySpace c) = c0 :: n' := by
    rw [List.append_assoc, List.cons_append]
    exact takeWhile_append_cons _ halln hns0
  have hdropw : ((c0 :: n') ++ (s0 :: ws') ++ (d0 :: t')).dropWhile
      (fun c => !isPySpace c) = (s0 :: ws') ++ (d0 :: t') := by
    rw [List.append_assoc, List.cons_append]
    exact dropWhile_append_cons _ halln hns0
  have hdrop2 : ((s0 :: ws') ++ (d0 :: t')).dropWhile isPySpace = d0 :: t' := by
    apply dropWhile_append_cons _ _ hd0
    intro c hc
    rcases List.mem_cons.mp hc with h | h
    · subst h; exact hs0
    · exact hws' _ h
  have hsplit : pySplitWS1 ((c0 :: n') ++ (s0 :: ws') ++ (d0 :: t')) =
      [c0 :: n', d0 :: t'] := by
    simp only [pySplitWS1, hdrop1, htake, hdropw, hdrop2]
    simp
  simp only [List.cons_append, List.append_assoc] at hstrip hnp hnf hsplit
  simp [parseClause, hstrip, hnp, hnf, hsplit]

theorem parseClause_column1 (acc : TableAcc) (n : List Char)
    (hn : n ≠ []) (hnw : ∀ c ∈ n, isPySpace c = false)
    (hnp : List.isPrefixOf "PRIMARY KEY".data (pyUpper n) = false)
    (hnf : List.isPrefixOf "FOREIGN KEY".data (pyUpper n) = false) :
    parseClause acc n =
      { acc with columns := dictInsert acc.columns n "VARCHAR(255)".data } := by
  obtain ⟨c0, n', rfl⟩ := List.exists_cons_of_ne_nil hn
  have hc0 : isPySpace c0 = false := hnw c0 (by simp)
  have halln : ∀ a ∈ c0 :: n', (fun c => !isPySpace c) a = true := by
    intro a ha
    simp [hnw a ha]
  have hstrip : pyStrip (c0 :: n') = c0 :: n' := by
    apply pyStrip_id
    · intro c hc
      simp at hc
      subst hc; exact hc0
    · intro c hc
      exact hnw c (mem_of_getLast?_eq hc)
  have hdropn : (c0 :: n').dropWhile isPySpace = c0 :: n' := by
    simp [List.dropWhile_cons, hc0]
  have hsplit : pySplitWS1 (c0 :: n') = [c0 :: n'] := by
    simp only [pySplitWS1, hdropn]
    rw [takeWhile_all halln, dropWhile_all halln]
    simp
  simp [parseClause, hstrip, hnp, hnf, hsplit]

theorem parseClause_ws (acc : TableAcc) (cl : List Char)
    (hsp : ∀ c ∈ cl, isPySpace c = true) :
    parseClause acc cl = acc := by
  have hstrip : pyStrip cl = [] := by
    simp [pyStrip, dropWhile_all hsp]
  simp +decide [parseClause, hstrip, pySplitWS1, pyUpper, List.isPrefixOf]

/-! ## String-level corollaries and claims C5, C6, C7 -/

/-- A non-empty string of `\w` characters (a regex "identifier"). -/
def isWordStr (s : String) : Bool := !s.data.isEmpty && s.data.all isWordChar

theorem isWordStr_spec {s : String} (h : isWordStr s = true) :
    s.data ≠ [] ∧ ∀ c ∈ s.data, isWordChar c = true := by
  simp only [isWordStr, Bool.and_eq_true, Bool.not_eq_true', List.isEmpty_eq_false,
    List.all_eq_true] at h
  exact h

theorem parseClause_pk_str (acc : TableAcc) (p : String)
    (hp : isWordStr p = true) :
    parseClause acc ("PRIMARY KEY(" ++ p ++ ")").data =
      { acc with primary_key := some p.data } := by
  obtain ⟨hne, hw⟩ := isWordStr_spec hp
  have hmain := parseClause_pk acc p.data hne hw
  have hdata : ("PRIMARY KEY(" ++ p ++ ")").data =
      'P':: 'R':: 'I':: 'M':: 'A':: 'R':: 'Y':: ' ':: 'K':: 'E':: 'Y':: '('::(p.data ++ [')']) := by
    simp
  rw [hdata, hmain]

theorem parseClause_fk_str (acc : TableAcc) (x y z : String)
    (hx : isWordStr x = true) (hy : isWordStr y = true) (hz : isWordStr z = true) :
    parseClause acc
      ("FOREIGN KEY (" ++ x ++ ") REFERENCES " ++ y ++ "(" ++ z ++ ")").data =
      { acc with foreign_keys :=
          acc.foreign_keys ++ [(x ++ " -> " ++ y ++ "." ++ z).data] } := by
  obtain ⟨hxe, hx'⟩ := isWordStr_spec hx
  obtain ⟨hye, hy'⟩ := isWordStr_spec hy
  obtain ⟨hze, hz'⟩ := isWordStr_spec hz
  have hmain := parseClause_fk acc x.data y.data z.data hxe hx' hye hy' hze hz'
  have hdata : ("FOREIGN KEY (" ++ x ++ ") REFERENCES " ++ y ++ "(" ++ z ++ ")").data =
      'F':: 'O':: 'R':: 'E':: 'I':: 'G':: 'N':: ' ':: 'K':: 'E':: 'Y':: ' ':: '('::
        (x.data ++ ')':: ' ':: 'R':: 'E':: 'F':: 'E':: 'R':: 'E':: 'N':: 'C':: 'E':: 'S':: ' '::
          (y.data ++ '('::(z.data ++ [')']))) := by
    simp
  have hout : (x ++ " -> " ++ y ++ "." ++ z).data =
      x.data ++ " -> ".data ++ y.data ++ ".".data ++ z.data := by
    simp
  rw [hdata, hmain, hout]

/-- C5: a clause `FOREIGN KEY (x) REFERENCES y(z)` appends the
descriptor `"x -> y.z"` at the end of `foreign_keys`; a run of such
clauses appends their descriptors in textual order; a clause that the
`FOREIGN KEY` prefix test accepts but the sub-pattern rejects leaves
the accumulator unchanged (silently dropped, no error). -/
theorem foreign_key_clause_behavior :
    (∀ (acc : TableAcc) (x y z : String),
      isWordStr x = true → isWordStr y = true → isWordStr z = true →
      parseClause acc
        ("FOREIGN KEY (" ++ x ++ ") REFERENCES " ++ y ++ "(" ++ z ++ ")").data =
        { acc with foreign_keys :=
            acc.foreign_keys ++ [(x ++ " -> " ++ y ++ "." ++ z).data] }) ∧
    (∀ (acc : TableAcc) (fks : List (String × String × String)),
      (∀ e ∈ fks, isWordStr e.1 = true ∧ isWordStr e.2.1 = true ∧
        isWordStr e.2.2 = true) →
      (List.foldl parseClause acc (fks.map (fun e =>
        ("FOREIGN KEY (" ++ e.1 ++ ") REFERENCES " ++ e.2.1 ++ "(" ++ e.2.2 ++ ")").data))).foreign_keys =
        acc.foreign_keys ++
          fks.map (fun e => (e.1 ++ " -> " ++ e.2.1 ++ "." ++ e.2.2).data)) ∧
    (∀ (acc : TableAcc) (cl : List Char),
      List.isPrefixOf "FOREIGN KEY".data (pyUpper (pyStrip cl)) = true →
      fkSearch (pyStrip cl) = none →
      parseClause acc cl = acc) := by
  refine ⟨parseClause_fk_str, ?_, parseClause_fk_fail⟩
  intro acc fks
  induction fks generalizing acc with
  | nil => intro _; simp
  | cons e es ih =>
    intro hall
    obtain ⟨hx, hy, hz⟩ := hall e (by simp)
    simp only [List.map_cons, List.foldl_cons]
    rw [parseClause_fk_str acc e.1 e.2.1 e.2.2 hx hy hz]
    rw [ih _ (fun q hq => hall q (by simp [hq]))]
    simp

theorem foreign_key_clause_behavior_witness :
    parseClause TableAcc.init
      ("FOREIGN KEY (" ++ "dept" ++ ") REFERENCES " ++ "Dept" ++ "(" ++ "id" ++ ")").data =
      { TableAcc.init with foreign_keys :=
          TableAcc.init.foreign_keys ++ [("dept" ++ " -> " ++ "Dept" ++ "." ++ "id").data] } :=
  foreign_key_clause_behavior.1 TableAcc.init "dept" "Dept" "id"
    (by decide) (by decide) (by decide)

/-- C6: in one table body every matching `PRIMARY KEY` clause
overwrites `primary_key`, so after a run of such clauses the recorded
key is the one from the last clause; and a clause classified as
PRIMARY KEY or FOREIGN KEY never touches the `columns` mapping. -/
theorem primary_key_last_wins_and_not_a_column :
    (∀ (acc : TableAcc) (ps : List String) (p : String),
      (∀ q ∈ ps ++ [p], isWordStr q = true) →
      (List.foldl parseClause acc ((ps ++ [p]).map (fun q =>
        ("PRIMARY KEY(" ++ q ++ ")").data))).primary_key = some p.data) ∧
    (∀ (acc : TableAcc) (cl : List Char),
      (List.isPrefixOf "PRIMARY KEY".data (pyUpper (pyStrip cl)) = true ∨
       List.isPrefixOf "FOREIGN KEY".data (pyUpper (pyStrip cl)) = true) →
      (parseClause acc cl).columns = acc.columns) := by
  refine ⟨?_, parseClause_keeps_columns⟩
  intro acc ps
  induction ps generalizing acc with
  | nil =>
    intro p hall
    simp only [List.nil_append, List.map_cons, List.map_nil, List.foldl_cons,
      List.foldl_nil]
    rw [parseClause_pk_str acc p (hall p (by simp))]
  | cons q qs ih =>
    intro p hall
    simp only [List.cons_append, List.map_cons, List.foldl_cons]
    rw [parseClause_pk_str acc q (hall q (by simp))]
    have := ih { acc with primary_key := some q.data } p
      (fun r hr => hall r (by simp at hr ⊢; tauto))
    simpa using this

theorem primary_key_last_wins_witness :
    (List.foldl parseClause TableAcc.init ((["a"] ++ ["b"]).map (fun q =>
      ("PRIMARY KEY(" ++ q ++ ")").data))).primary_key = some "b".data :=
  primary_key_last_wins_and_not_a_column.1 TableAcc.init ["a"] "b"
    (by decide)

/-- C7: a clause that is neither PRIMARY KEY nor FOREIGN KEY is split
on its first whitespace run: `name ws type` records `(name, type)` in
`columns`; a single whitespace-free word records the default type
`VARCHAR(255)`; an all-whitespace clause (e.g. from a trailing comma)
is skipped. -/
theorem column_clause_split_behavior :
    (∀ (acc : TableAcc) (n ws t : List Char),
      n ≠ [] → (∀ c ∈ n, isPySpace c = false) →
      ws ≠ [] → (∀ c ∈ ws, isPySpace c = true) →
      t ≠ [] → (∀ c, t.head? = some c → isPySpace c = false) →
      (∀ c, t.getLast? = some c → isPySpace c = false) →
      List.isPrefixOf "PRIMARY KEY".data (pyUpper (n ++ ws ++ t)) = false →
      List.isPrefixOf "FOREIGN KEY".data (pyUpper (n ++ ws ++ t)) = false →
      parseClause acc (n ++ ws ++ t) =
        { acc with columns := dictInsert acc.columns n t }) ∧
    (∀ (acc : TableAcc) (n : List Char),
      n ≠ [] → (∀ c ∈ n, isPySpace c = false) →
      List.isPrefixOf "PRIMARY KEY".data (pyUpper n) = false →
      List.isPrefixOf "FOREIGN KEY".data (pyUpper n) = false →
      parseClause acc n =
        { acc with columns := dictInsert acc.columns n "VARCHAR(255)".data }) ∧
    (∀ (acc : TableAcc) (cl : List Char),
      (∀ c ∈ cl, isPySpace c = true) →
      parseClause acc cl = acc) :=
  ⟨parseClause_column2, parseClause_column1, parseClause_ws⟩

theorem column_clause_split_behavior_witness :
    parseClause TableAcc.init "name VARCHAR(50)".data =
      { TableAcc.init with columns :=
          (dictInsert TableAcc.init.columns "name".data "VARCHAR(50)".data) } := by
  have h := column_clause_split_behavior.1 TableAcc.init
    "name".data " ".data "VARCHAR(50)".data
    (by decide) (by decide) (by decide) (by decide) (by decide)
    (by decide) (by decide) (by decide) (by decide)
  have hdata : "name VARCHAR(50)".data = "name".data ++ " ".data ++ "VARCHAR(50)".data := by
    decide
  rw [hdata, h]

/-! ## Claim C1: machinery -/

theorem word_not_comma {c : Char} (h : isWordChar c = true) : (c == ',') = false := by
  by_cases hc : c = ','
  · subst hc; exact absurd h (by decide)
  · simp [beq_eq_false_iff_ne, hc]

theorem word_not_rparen {c : Char} (h : isWordChar c = true) : (c == ')') = false := by
  by_cases hc : c = ')'
  · subst hc; exact absurd h (by decide)
  · simp [beq_eq_false_iff_ne, hc]

theorem hasCloseSemi_of_no_rparen :
    ∀ {l : List Char}, (∀ c ∈ l, (c == ')') = false) → hasCloseSemi l = false := by
  intro l
  induction l with
  | nil => intro _; rfl
  | cons c l' ih =>
    intro h
    cases l' with
    | nil => rfl
    | cons c1 l'' =>
      have hc : (c == ')') = false := h c (by simp)
      simp only [hasCloseSemi, hc, Bool.false_and, Bool.false_or]
      exact ih (fun x hx => h x (by simp at hx ⊢; tauto))

theorem hasCloseSemi_append {r : List Char} :
    ∀ {l : List Char}, hasCloseSemi l = false →
    (l.getLast? = some ')' → r.head? ≠ some ';') →
    hasCloseSemi (l ++ r) = hasCloseSemi r := by
  intro l
  induction l with
  | nil => intro _ _; rfl
  | cons c l' ih =>
    intro hl hsafe
    cases l' with
    | nil =>
      cases r with
      | nil => rfl
      | cons d r' =>
        simp only [List.cons_append, List.nil_append]
        show ((c == ')' && d == ';') || hasCloseSemi (d :: r')) = hasCloseSemi (d :: r')
        have hcd : (c == ')' && d == ';') = false := by
          by_cases hc : c = ')'
          · subst hc
            have hd : d ≠ ';' := by
              intro hd
              exact hsafe rfl (by rw [hd]; rfl)
            simp [beq_eq_false_iff_ne, hd]
          · simp [beq_eq_false_iff_ne, hc]
        simp [hcd]
    | cons c1 l'' =>
      simp only [hasCloseSemi, Bool.or_eq_false_iff] at hl
      have ihr := ih hl.2 (by
        intro hlast
        apply hsafe
        rw [List.getLast?_cons_cons]
        exact hlast)
      simp only [List.cons_append] at ihr ⊢
      show ((c == ')' && c1 == ';') || hasCloseSemi (c1 :: (l'' ++ r))) = hasCloseSemi r
      rw [ihr]
      simp [hl.1]

/-- Whether `l.head?`, if present, fails a character predicate. -/
def headNotSpace (l : List Char) : Bool :=
  match l.head? with
  | some c => !isPySpace c
  | none => true

/-- Whether `l.getLast?`, if present, fails `isPySpace`. -/
def lastNotSpace (l : List Char) : Bool :=
  match l.getLast? with
  | some c => !isPySpace c
  | none => true

/-- A "simple" column type in the sense of C1: non-empty, no comma (the
naive comma split would break it), no `);` substring (the lazy body
capture would end early), and no surrounding whitespace (stripping
would alter it). -/
def isSimpleType (s : String) : Bool :=
  !s.data.isEmpty && s.data.all (fun c => !(c == ',')) &&
  !hasCloseSemi s.data && headNotSpace s.data && lastNotSpace s.data

/-- A clause that the case-insensitive PRIMARY KEY / FOREIGN KEY prefix
tests both reject. -/
def notKeyClause (s : String) : Bool :=
  !(List.isPrefixOf "PRIMARY KEY".data (pyUpper s.data)) &&
  !(List.isPrefixOf "FOREIGN KEY".data (pyUpper s.data))

theorem headNotSpace_spec {l : List Char} (h : headNotSpace l = true) :
    ∀ c, l.head? = some c → isPySpace c = false := by
  intro c hc
  unfold headNotSpace at h
  rw [hc] at h
  simpa using h

theorem lastNotSpace_spec {l : List Char} (h : lastNotSpace l = true) :
    ∀ c, l.getLast? = some c → isPySpace c = false := by
  intro c hc
  unfold lastNotSpace at h
  rw [hc] at h
  simpa using h

theorem isSimpleType_spec {s : String} (h : isSimpleType s = true) :
    s.data ≠ [] ∧ (∀ c ∈ s.data, (c == ',') = false) ∧
    hasCloseSemi s.data = false ∧
    (∀ c, s.data.head? = some c → isPySpace c = false) ∧
    (∀ c, s.data.getLast? = some c → isPySpace c = false) := by
  simp only [isSimpleType, Bool.and_eq_true, Bool.not_eq_true',
    List.isEmpty_eq_false, List.all_eq_true] at h
  obtain ⟨⟨⟨⟨h1, h2⟩, h3⟩, h4⟩, h5⟩ := h
  exact ⟨h1, fun c hc => by simpa using h2 c hc, h3,
    headNotSpace_spec h4, lastNotSpace_spec h5⟩

theorem notKeyClause_spec {s : String} (h : notKeyClause s = true) :
    List.isPrefixOf "PRIMARY KEY".data (pyUpper s.data) = false ∧
    List.isPrefixOf "FOREIGN KEY".data (pyUpper s.data) = false := by
  simp only [notKeyClause, Bool.and_eq_true, Bool.not_eq_true'] at h
  exact h

theorem matchCreateAt_full (t body r : List Char)
    (hte : t ≠ []) (htw : ∀ c ∈ t, isWordChar c = true)
    (hbody : hasCloseSemi body = false) :
    matchCreateAt ('C':: 'R':: 'E':: 'A':: 'T':: 'E':: ' ':: 'T':: 'A':: 'B':: 'L':: 'E':: ' '::
      (t ++ ' ':: '('::(body ++ ')':: ';'::r))) = some (t, body, r) := by
  obtain ⟨c0, ts, rfl⟩ := List.exists_cons_of_ne_nil hte
  have hc0 : isWordChar c0 = true := htw c0 (by simp)
  have hc0sp : isPySpace c0 = false := word_not_space hc0
  have hts : ∀ c ∈ ts, isWordChar c = true := fun c hc => htw c (by simp [hc])
  have htt : (ts ++ ' ':: '('::(body ++ ')':: ';'::r)).takeWhile isWordChar = ts :=
    takeWhile_append_cons _ hts (by decide)
  have htd : (ts ++ ' ':: '('::(body ++ ')':: ';'::r)).dropWhile isWordChar =
      ' ':: '('::(body ++ ')':: ';'::r) :=
    dropWhile_append_cons _ hts (by decide)
  have hlb := lazyBody_append r hbody
  simp +decide [matchCreateAt, ciLit, ws1, word1, lit, List.dropWhile_cons,
    hc0, hc0sp, htt, htd, hlb, bind, Option.bind]

theorem splitBody (A TA B TB P : List Char)
    (hA : ∀ c ∈ A, (c == ',') = false)
    (hTA : ∀ c ∈ TA, (c == ',') = false)
    (hB : ∀ c ∈ B, (c == ',') = false)
    (hTB : ∀ c ∈ TB, (c == ',') = false)
    (hP : ∀ c ∈ P, (c == ',') = false) :
    splitComma (A ++ ' '::(TA ++ ',':: ' '::(B ++ ' '::(TB ++ ',':: ' ':: 'P':: 'R'::
        'I':: 'M':: 'A':: 'R':: 'Y':: ' ':: 'K':: 'E':: 'Y':: '('::(P ++ [')']))))) =
      [A ++ ' '::TA,
       ' '::(B ++ ' '::TB),
       ' ':: 'P':: 'R':: 'I':: 'M':: 'A':: 'R':: 'Y':: ' ':: 'K':: 'E':: 'Y':: '('::
         (P ++ [')'])] := by
  have hseg1 : ∀ c ∈ A ++ ' '::TA, (c == ',') = false := by
    intro c hc
    rcases List.mem_append.mp hc with h | h
    · exact hA c h
    · rcases List.mem_cons.mp h with h | h
      · subst h; decide
      · exact hTA c h
  have hseg2 : ∀ c ∈ ' '::(B ++ ' '::TB), (c == ',') = false := by
    intro c hc
    rcases List.mem_cons.mp hc with h | h
    · subst h; decide
    · rcases List.mem_append.mp h with h | h
      · exact hB c h
      · rcases List.mem_cons.mp h with h | h
        · subst h; decide
        · exact hTB c h
  have hseg3 : ∀ c ∈ ' ':: 'P':: 'R':: 'I':: 'M':: 'A':: 'R':: 'Y':: ' ':: 'K':: 'E':: 'Y'::
      '('::(P ++ [')']), (c == ',') = false := by
    intro c hc
    simp only [List.mem_cons, List.mem_append, List.mem_singleton] at hc
    rcases hc with h|h|h|h|h|h|h|h|h|h|h|h|h|h|h|h
    all_goals first
      | (subst h; decide)
      | (exact hP c h)
      | (simp at h)
  have e1 : A ++ ' '::(TA ++ ',':: ' '::(B ++ ' '::(TB ++ ',':: ' ':: 'P':: 'R'::
      'I':: 'M':: 'A':: 'R':: 'Y':: ' ':: 'K':: 'E':: 'Y':: '('::(P ++ [')'])))) =
      (A ++ ' '::TA) ++ ','::(' '::(B ++ ' '::TB) ++ ','::
        (' ':: 'P':: 'R':: 'I':: 'M':: 'A':: 'R':: 'Y':: ' ':: 'K':: 'E':: 'Y':: '('::
          (P ++ [')']))) := by
    simp
  rw [e1, splitComma_append _ hseg1, splitComma_append _ hseg2,
    splitComma_no_comma hseg3]

theorem mem_of_head?_eq {l : List Char} {c : Char} (h : l.head? = some c) :
    c ∈ l := by
  cases l with
  | nil => simp at h
  | cons x xs =>
    simp at h
    simp [h]

theorem head?_append_left {l r : List Char} {c : Char} (hne : l ≠ [])
    (h : (l ++ r).head? = some c) : l.head? = some c := by
  obtain ⟨x, xs, rfl⟩ := List.exists_cons_of_ne_nil hne
  simpa using h

theorem getLast?_append_right {l r : List Char} (hne : r ≠ []) :
    (l ++ r).getLast? = r.getLast? := by
  rw [List.getLast?_append]
  cases hr : r.getLast? with
  | none => exact absurd (List.getLast?_eq_none_iff.mp hr) hne
  | some x => rfl

theorem getLast?_cons_ne {c : Char} {l : List Char} (hne : l ≠ []) :
    (c :: l).getLast? = l.getLast? :=
  getLast?_append_right (l := [c]) hne

theorem pyStrip_cons_space {l : List Char}
    (h1 : ∀ c, l.head? = some c → isPySpace c = false)
    (h2 : ∀ c, l.getLast? = some c → isPySpace c = false) :
    pyStrip (' ' :: l) = l := by
  have := pyStrip_sandwich h1 h2 (u := [' ']) (v := [])
    (by intro c hc; simp at hc; subst hc; decide)
    (by intro c hc; simp at hc)
  simpa using this

theorem hasCloseSemi_cons_safe {c : Char} {r : List Char}
    (hc : (c == ')') = false) :
    hasCloseSemi (c :: r) = hasCloseSemi r := by
  cases r with
  | nil => rfl
  | cons d r' => simp [hasCloseSemi, hc]

theorem hasCloseSemi_word_append {w r : List Char}
    (hw : ∀ c ∈ w, isWordChar c = true) :
    hasCloseSemi (w ++ r) = hasCloseSemi r :=
  hasCloseSemi_append
    (hasCloseSemi_of_no_rparen (fun c hc => word_not_rparen (hw c hc)))
    (fun hlast => absurd (word_not_rparen (hw _ (mem_of_getLast?_eq hlast)))
      (by simp))

theorem mk_data_eq (s : String) : String.mk s.data = s := rfl

theorem parseTableBody_C1 (a ta b tb p : String)
    (ha : isWordStr a = true) (hbq : isWordStr b = true)
    (hpk : isWordStr p = true)
    (hta : isSimpleType ta = true) (htb : isSimpleType tb = true)
    (hab : a ≠ b)
    (hcl1 : notKeyClause (a ++ " " ++ ta) = true)
    (hcl2 : notKeyClause (b ++ " " ++ tb) = true) :
    parseTableBody (a.data ++ ' '::(ta.data ++ ',':: ' '::(b.data ++ ' '::
      (tb.data ++ ',':: ' ':: 'P':: 'R':: 'I':: 'M':: 'A':: 'R':: 'Y':: ' ':: 'K':: 'E'::
        'Y':: '('::(p.data ++ [')']))))) =
      Value.dict
        [("columns", Value.dict [(a, Value.str ta), (b, Value.str tb)]),
         ("primary_key", Value.str p),
         ("foreign_keys", Value.list [])] := by
  obtain ⟨hae, haw⟩ := isWordStr_spec ha
  obtain ⟨hbe, hbw⟩ := isWordStr_spec hbq
  obtain ⟨hpe, hpw⟩ := isWordStr_spec hpk
  obtain ⟨htae, htac, htacs, htah, htal⟩ := isSimpleType_spec hta
  obtain ⟨htbe, htbc, htbcs, htbh, htbl⟩ := isSimpleType_spec htb
  obtain ⟨h1p, h1f⟩ := notKeyClause_spec hcl1
  obtain ⟨h2p, h2f⟩ := notKeyClause_spec hcl2
  have hsplit := splitBody a.data ta.data b.data tb.data p.data
    (fun c hc => word_not_comma (haw c hc)) htac
    (fun c hc => word_not_comma (hbw c hc)) htbc
    (fun c hc => word_not_comma (hpw c hc))
  have hhead_a : ∀ c, (a.data ++ ' '::ta.data).head? = some c → isPySpace c = false := by
    intro c hc
    exact word_not_space (haw c (mem_of_head?_eq (head?_append_left hae hc)))
  have hlast_a : ∀ c, (a.data ++ ' '::ta.data).getLast? = some c → isPySpace c = false := by
    intro c hc
    rw [getLast?_append_right (by simp), getLast?_cons_ne htae] at hc
    exact htal c hc
  have hs1 : pyStrip (a.data ++ ' '::ta.data) = a.data ++ ' '::ta.data :=
    pyStrip_id hhead_a hlast_a
  have hhead_b : ∀ c, (b.data ++ ' '::tb.data).head? = some c → isPySpace c = false := by
    intro c hc
    exact word_not_space (hbw c (mem_of_head?_eq (head?_append_left hbe hc)))
  have hlast_b : ∀ c, (b.data ++ ' '::tb.data).getLast? = some c → isPySpace c = false := by
    intro c hc
    rw [getLast?_append_right (by simp), getLast?_cons_ne htbe] at hc
    exact htbl c hc
  have hs2 : pyStrip (' '::(b.data ++ ' '::tb.data)) = b.data ++ ' '::tb.data :=
    pyStrip_cons_space hhead_b hlast_b
  have hs3 : pyStrip (' ':: 'P':: 'R':: 'I':: 'M':: 'A':: 'R':: 'Y':: ' ':: 'K':: 'E'::
      'Y':: '('::(p.data ++ [')'])) =
      'P':: 'R':: 'I':: 'M':: 'A':: 'R':: 'Y':: ' ':: 'K':: 'E':: 'Y':: '('::(p.data ++ [')']) := by
    apply pyStrip_cons_space
    · intro c hc
      simp at hc
      subst hc; decide
    · intro c hc
      rw [show 'P':: 'R':: 'I':: 'M':: 'A':: 'R':: 'Y':: ' ':: 'K':: 'E':: 'Y':: '('::(p.data ++ [')']) =
        (['P','R','I','M','A','R','Y',' ','K','E','Y','('] ++ p.data) ++ [')'] from by simp] at hc
      rw [List.getLast?_concat] at hc
      cases hc; decide
  have hstep1 := parseClause_column2 TableAcc.init a.data [' '] ta.data
    hae (fun c hc => word_not_space (haw c hc))
    (by simp) (by intro c hc; simp at hc; subst hc; decide)
    htae htah htal h1p h1f
  have hstep2 := parseClause_column2
    { TableAcc.init with columns := dictInsert TableAcc.init.columns a.data ta.data }
    b.data [' '] tb.data
    hbe (fun c hc => word_not_space (hbw c hc))
    (by simp) (by intro c hc; simp at hc; subst hc; decide)
    htbe htbh htbl h2p h2f
  have hstep3 := parseClause_pk
    { TableAcc.init with columns :=
        (dictInsert (dictInsert TableAcc.init.columns a.data ta.data) b.data tb.data) }
    p.data hpe hpw
  simp only [List.append_assoc, List.cons_append, List.nil_append] at hstep1 hstep2
  unfold parseTableBody
  rw [hsplit]
  simp only [List.map_cons, List.map_nil, hs1, hs2, hs3,
    List.foldl_cons, List.foldl_nil]
  rw [hstep1, hstep2, hstep3]
  have hne : (a.data == b.data) = false := by
    apply beq_eq_false_iff_ne.mpr
    intro hcon
    exact hab (String.ext hcon)
  simp [TableAcc.init, dictInsert, hne, mk_data_eq]

/-- C1: for every well-formed single-table input
`CREATE TABLE t (a ta, b tb, PRIMARY KEY(p));` — identifiers made of
word characters, distinct column names, simple comma-free types —
the extractor returns a schema whose only table `t` has columns
exactly `{a: ta, b: tb}` and primary key exactly `p`. -/
theorem create_table_extraction (t a b ta tb p : String)
    (ht : isWordStr t = true) (ha : isWordStr a = true)
    (hbq : isWordStr b = true) (hpk : isWordStr p = true)
    (hta : isSimpleType ta = true) (htb : isSimpleType tb = true)
    (hab : a ≠ b)
    (hcl1 : notKeyClause (a ++ " " ++ ta) = true)
    (hcl2 : notKeyClause (b ++ " " ++ tb) = true) :
    parse_sql_schema ("CREATE TABLE " ++ t ++ " (" ++ a ++ " " ++ ta ++ ", " ++
        b ++ " " ++ tb ++ ", PRIMARY KEY(" ++ p ++ "));") =
      Value.dict [(t, Value.dict
        [("columns", Value.dict [(a, Value.str ta), (b, Value.str tb)]),
         ("primary_key", Value.str p),
         ("foreign_keys", Value.list [])])] := by
  obtain ⟨hte, htw⟩ := isWordStr_spec ht
  obtain ⟨hae, haw⟩ := isWordStr_spec ha
  obtain ⟨hbe, hbw⟩ := isWordStr_spec hbq
  obtain ⟨hpe, hpw⟩ := isWordStr_spec hpk
  obtain ⟨htae, htac, htacs, htah, htal⟩ := isSimpleType_spec hta
  obtain ⟨htbe, htbc, htbcs, htbh, htbl⟩ := isSimpleType_spec htb
  have hbody : hasCloseSemi (a.data ++ ' '::(ta.data ++ ',':: ' '::(b.data ++ ' '::
      (tb.data ++ ',':: ' ':: 'P':: 'R':: 'I':: 'M':: 'A':: 'R':: 'Y':: ' ':: 'K':: 'E'::
        'Y':: '('::(p.data ++ [')']))))) = false := by
    rw [hasCloseSemi_word_append haw,
      hasCloseSemi_cons_safe (by decide),
      hasCloseSemi_append htacs (fun _ => by simp),
      hasCloseSemi_cons_safe (by decide),
      hasCloseSemi_cons_safe (by decide),
      hasCloseSemi_word_append hbw,
      hasCloseSemi_cons_safe (by decide),
      hasCloseSemi_append htbcs (fun _ => by simp),
      hasCloseSemi_cons_safe (by decide),
      hasCloseSemi_cons_safe (by decide),
      hasCloseSemi_cons_safe (by decide),
      hasCloseSemi_cons_safe (by decide),
      hasCloseSemi_cons_safe (by decide),
      hasCloseSemi_cons_safe (by decide),
      hasCloseSemi_cons_safe (by decide),
      hasCloseSemi_cons_safe (by decide),
      hasCloseSemi_cons_safe (by decide),
      hasCloseSemi_cons_safe (by decide),
      hasCloseSemi_cons_safe (by decide),
      hasCloseSemi_cons_safe (by decide),
      hasCloseSemi_cons_safe (by decide),
      hasCloseSemi_cons_safe (by decide),
      hasCloseSemi_word_append hpw]
    rfl
  have hm := matchCreateAt_full t.data
    (a.data ++ ' '::(ta.data ++ ',':: ' '::(b.data ++ ' '::
      (tb.data ++ ',':: ' ':: 'P':: 'R':: 'I':: 'M':: 'A':: 'R':: 'Y':: ' ':: 'K':: 'E'::
        'Y':: '('::(p.data ++ [')'])))))
    [] hte htw hbody
  have hinput : ("CREATE TABLE " ++ t ++ " (" ++ a ++ " " ++ ta ++ ", " ++
      b ++ " " ++ tb ++ ", PRIMARY KEY(" ++ p ++ "));").data =
      'C':: 'R':: 'E':: 'A':: 'T':: 'E':: ' ':: 'T':: 'A':: 'B':: 'L':: 'E':: ' '::
        (t.data ++ ' ':: '('::
          ((a.data ++ ' '::(ta.data ++ ',':: ' '::(b.data ++ ' '::
            (tb.data ++ ',':: ' ':: 'P':: 'R':: 'I':: 'M':: 'A':: 'R':: 'Y':: ' ':: 'K'::
              'E':: 'Y':: '('::(p.data ++ [')']))))) ++ ')':: ';'::[])) := by
    simp
  unfold parse_sql_schema
  rw [hinput, scanTables_match hm, scanTables_nil]
  simp only [List.foldl_cons, List.foldl_nil]
  rw [parseTableBody_C1 a ta b tb p ha hbq hpk hta htb hab hcl1 hcl2]
  rfl

theorem create_table_extraction_witness :
    parse_sql_schema "CREATE TABLE t (a INT, b VARCHAR(10), PRIMARY KEY(a));" =
      Value.dict [("t", Value.dict
        [("columns", Value.dict [("a", Value.str "INT"),
                                 ("b", Value.str "VARCHAR(10)")]),
         ("primary_key", Value.str "a"),
         ("foreign_keys", Value.list [])])] := by
  have h := create_table_extraction "t" "a" "b" "INT" "VARCHAR(10)" "a"
    (by decide) (by decide) (by decide) (by decide) (by decide) (by decide)
    (by decide) (by decide) (by decide)
  have harg : ("CREATE TABLE " ++ "t" ++ " (" ++ "a" ++ " " ++ "INT" ++ ", " ++
      "b" ++ " " ++ "VARCHAR(10)" ++ ", PRIMARY KEY(" ++ "a" ++ "));") =
      "CREATE TABLE t (a INT, b VARCHAR(10), PRIMARY KEY(a));" := by decide
  rw [harg] at h
  exact h
